import Mathlib

/-!
A verification development for the overbot-ep orchestration core.

The definitions below are shallow embeddings of the Rust sources:

* `Overbot.Broadcast` models the `tokio::sync::broadcast` channel that
  `System::run_with_config` (src/system.rs) creates as the cancellation bus,
  together with the `QuitOnError::quit_on_err` combinator and the
  `System::run_loop` drain loop.
* `Overbot.TypeMap` models `DashTypeMap` (src/dash_type_map.rs), the
  type-identity-keyed registry with its type-erased boxes and downcasts.
* `Overbot.Db` models `Migration` / `Migrations::migrate_up`
  (src/database.rs), the checksum-verified schema migration engine.
-/

set_option linter.unusedVariables false

namespace Overbot

namespace Broadcast

/-- State of a `tokio::sync::broadcast` channel (the cancellation bus).
`next_pos` counts the messages accepted into the ring buffer so far;
`rx_count` counts the live receivers; `capacity` is the ring size
(`broadcast::channel(1)` in `System::run_with_config`). -/
structure Channel where
  capacity : Nat
  next_pos : Nat
  rx_count : Nat
deriving Repr, DecidableEq

/-- A broadcast receiver: the position of the next message it will read.
Per tokio semantics a receiver reads only messages sent after it was created. -/
structure Receiver where
  pos : Nat
deriving Repr, DecidableEq

/-- Value of `broadcast::channel(capacity)`: a fresh channel plus its initial
receiver (the `_recv_quit` binding in `System::run_with_config`). -/
def channel (capacity : Nat) : Channel × Receiver :=
  ({ capacity := capacity, next_pos := 0, rx_count := 1 }, { pos := 0 })

inductive SendResult
  | ok
  | noReceivers
deriving Repr, DecidableEq

/-- Sender `send`: with no live receivers the value is dropped and an error is
returned; otherwise the value is written at the tail position. -/
def send (ch : Channel) : SendResult × Channel :=
  if ch.rx_count = 0 then (SendResult.noReceivers, ch)
  else (SendResult.ok, { ch with next_pos := ch.next_pos + 1 })

/-- Sender `subscribe`: the new receiver starts at the current tail position,
so it observes only messages sent after this call. -/
def subscribe (ch : Channel) : Receiver × Channel :=
  ({ pos := ch.next_pos }, { ch with rx_count := ch.rx_count + 1 })

inductive RecvResult
  | value
  | lagged (missed : Nat)
  | empty
deriving Repr, DecidableEq

/-- Receiver `try_recv` (a receiver's non-blocking first check): a value is
seen only if the receiver's position is behind the tail; a receiver further
behind than the ring capacity lags forward; otherwise the channel is empty
for this receiver. -/
def try_recv (ch : Channel) (r : Receiver) : RecvResult × Receiver :=
  if r.pos < ch.next_pos then
    if ch.capacity < ch.next_pos - r.pos then
      (RecvResult.lagged (ch.next_pos - ch.capacity - r.pos),
       { pos := ch.next_pos - ch.capacity })
    else
      (RecvResult.value, { pos := r.pos + 1 })
  else
    (RecvResult.empty, r)

/-- Embedding of `QuitOnError::quit_on_err` (src/system.rs lines 17-29): if
the result is an error, send on the quit channel (ignoring the send result),
then return the result unchanged. -/
def quit_on_err {E S : Type} (res : Except E S) (quit : Channel) :
    Except E S × Channel :=
  match res with
  | Except.error e => (Except.error e, (send quit).2)
  | Except.ok v => (Except.ok v, quit)

end Broadcast

namespace SystemLoop

/-- Outcome of awaiting one `JoinHandle<anyhow::Result<()>>` from
`system_tasks`: `Ok(Ok(()))`, `Ok(Err(e))` or a join error `Err(e)`. -/
inductive TaskOutcome
  | success
  | appError (msg : String)
  | joinError (msg : String)
deriving Repr, DecidableEq

/-- Embedding of `System::run_loop` (src/system.rs lines 337-351): pop one
handle at a time from the task queue until it is empty, logging error
outcomes and always finishing with `Ok(())`.  The queue is the list of the
outcomes its handles resolve to; the returned list is the log. -/
def run_loop : List TaskOutcome → List String × Except String Unit
  | [] => ([], Except.ok ())
  | t :: rest =>
    match t with
    | TaskOutcome.success => run_loop rest
    | TaskOutcome.appError e =>
      let r := run_loop rest
      (("System Task returned an error result: " ++ e) :: r.1, r.2)
    | TaskOutcome.joinError e =>
      let r := run_loop rest
      (("System Task Join Error: " ++ e) :: r.1, r.2)

/-- The log line `run_loop` emits for one task outcome, if any. -/
def taskLog : TaskOutcome → Option String
  | TaskOutcome.success => none
  | TaskOutcome.appError e => some ("System Task returned an error result: " ++ e)
  | TaskOutcome.joinError e => some ("System Task Join Error: " ++ e)

end SystemLoop

namespace TypeMap

/-- Errors of `DashTypeMap` (src/dash_type_map.rs lines 9-14). -/
inductive DashTypeMapErrors
  | AlreadyExists
  | DoesNotExist
  | Timeout
deriving Repr, DecidableEq

/-- Embedding of `DashTypeMap`: `κ` stands for `TypeId` and `I k` for the
Rust type a `TypeId` names; an entry `Sigma I` is a `Box<dyn Any>` — a value
remembering the `TypeId` of its contents.  `entries` is the `DashMap` and
`wakers` the `SegQueue<Waker>` of queued change wakers, identified by id. -/
structure DashTypeMap (κ : Type) (I : κ → Type) where
  entries : κ → Option (Sigma I)
  wakers : List Nat

variable {κ : Type} [DecidableEq κ] {I : κ → Type}

/-- Embedding of `DashTypeMap::new` / `Default::default`. -/
def DashTypeMap.new : DashTypeMap κ I :=
  { entries := fun _ => none, wakers := [] }

/-- Embedding of `DashTypeMap::contains_key`. -/
def DashTypeMap.contains_key (m : DashTypeMap κ I) (k : κ) : Bool :=
  (m.entries k).isSome

/-- Embedding of `DashTypeMap::add_change_waker` (SegQueue push). -/
def DashTypeMap.add_change_waker (m : DashTypeMap κ I) (w : Nat) : DashTypeMap κ I :=
  { m with wakers := m.wakers ++ [w] }

/-- Embedding of `Any::downcast` on a stored box: succeeds exactly when the
box's recorded `TypeId` is the requested one. -/
def downcast (V : κ) (d : Sigma I) : Option (I V) :=
  if h : d.1 = V then some (h ▸ d.2) else none

/-- Embedding of `DashTypeMap::insert` (src/dash_type_map.rs lines 73-84):
fail with `AlreadyExists` when the key is present (the map untouched, no
wakers processed); otherwise store the boxed value and drain the waker queue,
waking every queued waker.  The third component is the list of woken wakers. -/
def DashTypeMap.insert (m : DashTypeMap κ I) (V : κ) (v : I V) :
    Except DashTypeMapErrors Unit × DashTypeMap κ I × List Nat :=
  if m.contains_key V then
    (Except.error DashTypeMapErrors.AlreadyExists, m, [])
  else
    (Except.ok (),
     { entries := fun k => if k = V then some ⟨V, v⟩ else m.entries k, wakers := [] },
     m.wakers)

/-- Embedding of `DashTypeMap::remove` (src/dash_type_map.rs lines 86-96):
fail with `DoesNotExist` when absent; otherwise remove the entry, wake all
queued wakers and downcast the box.  The inner `Option` is the downcast: the
Rust code `expect`s it, so `Except.ok none` is the panic branch. -/
def DashTypeMap.remove (m : DashTypeMap κ I) (V : κ) :
    Except DashTypeMapErrors (Option (I V)) × DashTypeMap κ I × List Nat :=
  match m.entries V with
  | none => (Except.error DashTypeMapErrors.DoesNotExist, m, [])
  | some d =>
    (Except.ok (downcast V d),
     { entries := fun k => if k = V then none else m.entries k, wakers := [] },
     m.wakers)

/-- Embedding of `DashTypeMap::with` (src/dash_type_map.rs lines 98-112):
fail with `DoesNotExist` when absent; otherwise downcast the borrowed box and
apply `fun`.  As in `remove`, `Except.ok none` is the panic branch of the
`expect` on the downcast. -/
def DashTypeMap.with_ {R : Type} (m : DashTypeMap κ I) (V : κ) (f : I V → R) :
    Except DashTypeMapErrors (Option R) :=
  match m.entries V with
  | none => Except.error DashTypeMapErrors.DoesNotExist
  | some d => Except.ok ((downcast V d).map f)

/-- Embedding of `DashTypeMap::with_mut` (src/dash_type_map.rs lines 114-128):
like `with_` but `fun` mutates the stored value in place (modelled by
returning the new value next to the result).  No wakers are processed. -/
def DashTypeMap.with_mut {R : Type} (m : DashTypeMap κ I) (V : κ) (f : I V → I V × R) :
    Except DashTypeMapErrors (Option R) × DashTypeMap κ I :=
  match m.entries V with
  | none => (Except.error DashTypeMapErrors.DoesNotExist, m)
  | some d =>
    match downcast V d with
    | none => (Except.ok none, m)
    | some v =>
      (Except.ok (some (f v).2),
       { entries := fun k => if k = V then some ⟨V, (f v).1⟩ else m.entries k,
         wakers := m.wakers })

/-- The registry states reachable through the `DashTypeMap` API from the
freshly constructed map. -/
inductive Reachable : DashTypeMap κ I → Prop
  | new : Reachable DashTypeMap.new
  | insert (m : DashTypeMap κ I) (V : κ) (v : I V) :
      Reachable m → Reachable (m.insert V v).2.1
  | remove (m : DashTypeMap κ I) (V : κ) :
      Reachable m → Reachable (m.remove V).2.1
  | with_mut {R : Type} (m : DashTypeMap κ I) (V : κ) (f : I V → I V × R) :
      Reachable m → Reachable (m.with_mut V f).2
  | add_waker (m : DashTypeMap κ I) (w : Nat) :
      Reachable m → Reachable (m.add_change_waker w)

/-- Every stored box's recorded key is the key it is stored under. -/
def WellTyped (m : DashTypeMap κ I) : Prop :=
  ∀ k d, m.entries k = some d → d.1 = k

end TypeMap

namespace Db

/-- Embedding of `Migration` (src/database.rs lines 257-262). -/
structure Migration where
  description : String
  sql_up : String
  sql_down : String
deriving Repr, DecidableEq

/-- Embedding of `Migration::checksum`: SHA-512 over `sql_up` then `sql_down`
(src/database.rs lines 301-310).  The hash itself lives in the external
`sha2` crate, so the whole development is parameterised by the hash function
`cf`; every SHA-512 digest is 64 bytes long, which enters the theorems as a
hypothesis on `cf`. -/
def Migration.checksum (cf : String → String → List Nat) (m : Migration) : List Nat :=
  cf m.sql_up m.sql_down

/-- Embedding of `Migrations` (src/database.rs lines 264-267). -/
structure Migrations where
  module : String
  migrations : List Migration
deriving Repr, DecidableEq

/-- One row of the `_migrations` ledger table. -/
structure LedgerRow where
  module : String
  version : Int
  checksum : List Nat
  description : String
deriving Repr, DecidableEq

/-- The persistent store, reduced to the `_migrations` ledger: rows in
insertion order. -/
structure DbState where
  ledger : List LedgerRow
deriving Repr, DecidableEq

/-- Observable actions `migrate_up` performs against the store. -/
inductive DbEvent
  | beginTx
  | readLedger
  | execSql (sql : String)
  | insertRow (module : String) (version : Int) (checksum : List Nat)
      (description : String)
  | commitTx
  | rollbackTx
deriving Repr, DecidableEq

/-- The three `bail!` errors of `Migrations::migrate_up`, by their content. -/
inductive MigError
  | checksumLength (module : String) (version : Int)
  | versionMismatch (module : String) (version : Int) (expected : Int)
  | checksumMismatch (module : String) (version : Int)
      (found expected : List Nat)
deriving Repr, DecidableEq

/-- The ledger rows belonging to one module, in insertion order. -/
def moduleRows (db : DbState) (module : String) : List LedgerRow :=
  db.ledger.filter (fun r => r.module == module)

/-- The (version, checksum) projection of a module's rows, in insertion
order: what the `SELECT version, checksum` query reads before ordering. -/
def moduleVersionRows (db : DbState) (module : String) : List (Int × List Nat) :=
  (moduleRows db module).map (fun r => (r.version, r.checksum))

/-- Insertion step for a descending (by version) insertion sort. -/
def insertDesc (x : Int × List Nat) :
    List (Int × List Nat) → List (Int × List Nat)
  | [] => [x]
  | y :: ys => if y.1 ≤ x.1 then x :: y :: ys else y :: insertDesc x ys

/-- Descending (by version) insertion sort: the `ORDER BY version DESC`. -/
def sortDesc : List (Int × List Nat) → List (Int × List Nat)
  | [] => []
  | x :: xs => insertDesc x (sortDesc xs)

/-- Rows the ledger query returns: version and checksum of the module's rows,
`ORDER BY version DESC` (src/database.rs lines 335-340). -/
def fetchDesc (db : DbState) (module : String) : List (Int × List Nat) :=
  sortDesc (moduleVersionRows db module)

/-- The `for (mig_version, mig) in self.migrations.iter().enumerate()` loop
of `Migrations::migrate_up` (src/database.rs lines 341-372).  `current` in
the Rust code is the descending `Vec` of fetched rows, and `Vec::pop`
removes its last element, so the loop consumes rows in ascending version
order; `cur` here is that `Vec` reversed and consumed from the head.
Returns the transaction's resulting store (or the bail error, the
transaction then rolled back by the caller) plus the accumulated events. -/
def migrateLoop (cf : String → String → List Nat) (module : String) :
    List Migration → Int → List (Int × List Nat) → DbState → List DbEvent →
    Except MigError DbState × List DbEvent
  | [], _, _, db, evs => (Except.ok db, evs)
  | mig :: rest, ver, row :: cur, db, evs =>
    if row.2.length ≠ 64 then
      (Except.error (MigError.checksumLength module row.1), evs)
    else if row.1 ≠ ver then
      (Except.error (MigError.versionMismatch module row.1 ver), evs)
    else if row.2 ≠ Migration.checksum cf mig then
      (Except.error
        (MigError.checksumMismatch module row.1 row.2 (Migration.checksum cf mig)),
       evs)
    else
      migrateLoop cf module rest (ver + 1) cur db evs
  | mig :: rest, ver, [], db, evs =>
    migrateLoop cf module rest (ver + 1) []
      { ledger := db.ledger ++
          [{ module := module, version := ver,
             checksum := Migration.checksum cf mig,
             description := mig.description }] }
      (evs ++ [DbEvent.execSql mig.sql_up,
               DbEvent.insertRow module ver (Migration.checksum cf mig)
                 mig.description])

/-- Embedding of `Migrations::migrate_up` (src/database.rs lines 328-377):
an empty migration list does nothing at all; otherwise open a transaction,
fetch the module's ledger rows in descending version order and run the loop,
committing on success and rolling back (store unchanged) on a bail. -/
def migrate_up (cf : String → String → List Nat) (ms : Migrations)
    (db : DbState) : Except MigError Unit × DbState × List DbEvent :=
  if ms.migrations.isEmpty then (Except.ok (), db, [])
  else
    match migrateLoop cf ms.module ms.migrations 0
        (fetchDesc db ms.module).reverse db
        [DbEvent.beginTx, DbEvent.readLedger] with
    | (Except.ok db', evs) => (Except.ok (), db', evs ++ [DbEvent.commitTx])
    | (Except.error e, evs) => (Except.error e, db, evs ++ [DbEvent.rollbackTx])

/-- The SQL texts executed in an event trace. -/
def execSqls (evs : List DbEvent) : List String :=
  evs.filterMap (fun e =>
    match e with
    | DbEvent.execSql s => some s
    | _ => none)

/-- Modelled from the spec: the migration walk as the spec words it — walk
the defined migrations in ascending version order against the module's
ledger rows taken in ascending version order; an index with a row fails
fatally when the row's checksum length is not 64 bytes, or its version
differs from the index, or its checksum differs from the compiled-in
migration's checksum; an index with no row executes the forward SQL and
appends a ledger row with the module, version, checksum, and description.
Returns the executed SQL texts and either the appended rows or the error. -/
def specWalk (cf : String → String → List Nat) (module : String) :
    List Migration → Nat → List (Int × List Nat) →
    List String × Except MigError (List LedgerRow)
  | [], _, _ => ([], Except.ok [])
  | mig :: rest, idx, row :: rows =>
    if row.2.length ≠ 64 then
      ([], Except.error (MigError.checksumLength module row.1))
    else if row.1 ≠ (idx : Int) then
      ([], Except.error (MigError.versionMismatch module row.1 (idx : Int)))
    else if row.2 ≠ Migration.checksum cf mig then
      ([], Except.error
        (MigError.checksumMismatch module row.1 row.2 (Migration.checksum cf mig)))
    else specWalk cf module rest (idx + 1) rows
  | mig :: rest, idx, [] =>
    let r := specWalk cf module rest (idx + 1) []
    (mig.sql_up :: r.1,
     Except.map (fun tail =>
        { module := module, version := (idx : Int),
          checksum := Migration.checksum cf mig,
          description := mig.description } :: tail) r.2)

/-- The ledger rows a full run appends for `migs` starting at version `ver`. -/
def canonRows (cf : String → String → List Nat) (module : String) :
    List Migration → Int → List LedgerRow
  | [], _ => []
  | mig :: rest, ver =>
    { module := module, version := ver,
      checksum := Migration.checksum cf mig,
      description := mig.description } :: canonRows cf module rest (ver + 1)

/-- The (version, checksum) rows matching `migs` starting at version `ver`. -/
def matchingRows (cf : String → String → List Nat) :
    List Migration → Int → List (Int × List Nat)
  | [], _ => []
  | mig :: rest, ver =>
    (ver, Migration.checksum cf mig) :: matchingRows cf rest (ver + 1)

/-- The events a full run emits for `migs` starting at version `ver`. -/
def canonEvents (cf : String → String → List Nat) (module : String) :
    List Migration → Int → List DbEvent
  | [], _ => []
  | mig :: rest, ver =>
    DbEvent.execSql mig.sql_up ::
    DbEvent.insertRow module ver (Migration.checksum cf mig) mig.description ::
    canonEvents cf module rest (ver + 1)

end Db

/-! Theorems. -/

namespace Broadcast

/-- C1 (counterexample): on the cancellation bus of `System::run_with_config`
(a `broadcast::channel(1)` whose initial receiver `_recv_quit` is kept
alive), a `signal` is accepted, yet a subscriber created after that signal
does not observe it on its first check: its `try_recv` reports the channel
empty.  This refutes the claim that a subscriber created after `signal()`
still observes the signal as already fired. -/
theorem subscribe_after_signal_not_observed :
    (send (channel 1).1).1 = SendResult.ok ∧
    (try_recv (subscribe (send (channel 1).1).2).2
        (subscribe (send (channel 1).1).2).1).1 = RecvResult.empty := by
  decide

/-- C1 (amended): on a bus with positive ring capacity, a subscriber created
before `signal()` observes the signal on its first check once it has been
sent; the send is recorded (the position counter advances and is never
rewound); but a subscriber created after the signal starts past it and does
not observe it — the tokio broadcast bus is edge-triggered. -/
theorem bus_signal_observed_by_prior_subscriber (ch : Channel)
    (hcap : 0 < ch.capacity) :
    (try_recv (send (subscribe ch).2).2 (subscribe ch).1).1 = RecvResult.value ∧
    (send (subscribe ch).2).2.next_pos = ch.next_pos + 1 ∧
    (try_recv (send (subscribe ch).2).2
        (subscribe (send (subscribe ch).2).2).1).1 = RecvResult.empty := by
  have h1 : ¬ ch.capacity < ch.next_pos + 1 - ch.next_pos := by omega
  have h2 : ¬ ch.capacity = 0 := by omega
  simp [subscribe, send, try_recv, h1, h2]

/-- Witness for `bus_signal_observed_by_prior_subscriber` at the concrete
channel `broadcast::channel(1)`. -/
theorem bus_signal_observed_by_prior_subscriber_witness :
    0 < ((channel 1).1).capacity ∧
    ((try_recv (send (subscribe (channel 1).1).2).2
        (subscribe (channel 1).1).1).1 = RecvResult.value ∧
     (send (subscribe (channel 1).1).2).2.next_pos = ((channel 1).1).next_pos + 1 ∧
     (try_recv (send (subscribe (channel 1).1).2).2
        (subscribe (send (subscribe (channel 1).1).2).2).1).1 = RecvResult.empty) :=
  ⟨by decide, bus_signal_observed_by_prior_subscriber (channel 1).1 (by decide)⟩

/-- C6: as long as the bus has a live receiver (as in the system, where
`_recv_quit` is held for the whole run), `quit_on_err` returns the result
unchanged, and the quit signal is sent — the bus position counter advances
by one — exactly when the result is an error; an `Ok` result leaves the bus
untouched. -/
theorem quit_on_err_spec {E S : Type} (res : Except E S) (ch : Channel)
    (hrx : 0 < ch.rx_count) :
    (quit_on_err res ch).1 = res ∧
    (quit_on_err res ch).2.next_pos =
      (if res.isOk then ch.next_pos else ch.next_pos + 1) ∧
    (quit_on_err res ch).2.rx_count = ch.rx_count ∧
    (quit_on_err res ch).2.capacity = ch.capacity := by
  cases res with
  | ok v => simp [quit_on_err, Except.isOk, Except.toBool]
  | error e =>
    have h0 : ¬ ch.rx_count = 0 := by omega
    simp [quit_on_err, send, h0, Except.isOk, Except.toBool]

/-- Witness for `quit_on_err_spec` at a concrete failed result on the
freshly created bus. -/
theorem quit_on_err_spec_witness :
    0 < ((channel 1).1).rx_count ∧
    ((quit_on_err (Except.error "task failed" : Except String Unit)
        (channel 1).1).1 = Except.error "task failed" ∧
     (quit_on_err (Except.error "task failed" : Except String Unit)
        (channel 1).1).2.next_pos =
       (if (Except.error "task failed" : Except String Unit).isOk then
          ((channel 1).1).next_pos
        else ((channel 1).1).next_pos + 1) ∧
     (quit_on_err (Except.error "task failed" : Except String Unit)
        (channel 1).1).2.rx_count = ((channel 1).1).rx_count ∧
     (quit_on_err (Except.error "task failed" : Except String Unit)
        (channel 1).1).2.capacity = ((channel 1).1).capacity) :=
  ⟨by decide,
   quit_on_err_spec (Except.error "task failed") (channel 1).1 (by decide)⟩

end Broadcast

namespace SystemLoop

/-- C7: `run_loop` removes and awaits handles one at a time until the queue
is empty, and returns `Ok(())` whatever each task resolved to; an
application error and a join failure each produce exactly their log line and
are never propagated as the loop's own result. -/
theorem run_loop_spec (tasks : List TaskOutcome) :
    (run_loop tasks).2 = Except.ok () ∧
    (run_loop tasks).1 = tasks.filterMap taskLog := by
  induction tasks with
  | nil => simp [run_loop]
  | cons t rest ih =>
    cases t <;> simp [run_loop, taskLog, ih.1, ih.2]

end SystemLoop

namespace TypeMap

/-- Every reachable registry state is well-typed: a stored box's recorded
type identity is the key it is stored under. -/
theorem reachable_wellTyped {κ : Type} [DecidableEq κ] {I : κ → Type}
    {m : DashTypeMap κ I} (h : Reachable m) : WellTyped m := by
  induction h with
  | new =>
    intro k d hd
    simp [DashTypeMap.new] at hd
  | insert m V v hm ih =>
    intro k d hd
    by_cases hc : m.contains_key V = true
    · simp [DashTypeMap.insert, hc] at hd
      exact ih k d hd
    · simp [DashTypeMap.insert, hc] at hd
      by_cases hk : k = V
      · subst hk
        simp at hd
        subst hd
        rfl
      · simp [hk] at hd
        exact ih k d hd
  | remove m V hm ih =>
    intro k d hd
    cases hv : m.entries V with
    | none =>
      simp [DashTypeMap.remove, hv] at hd
      exact ih k d hd
    | some d0 =>
      simp [DashTypeMap.remove, hv] at hd
      by_cases hk : k = V
      · simp [hk] at hd
      · simp [hk] at hd
        exact ih k d hd
  | with_mut m V f hm ih =>
    intro k d hd
    cases hv : m.entries V with
    | none =>
      simp [DashTypeMap.with_mut, hv] at hd
      exact ih k d hd
    | some d0 =>
      cases hdc : downcast V d0 with
      | none =>
        simp [DashTypeMap.with_mut, hv, hdc] at hd
        exact ih k d hd
      | some v0 =>
        simp [DashTypeMap.with_mut, hv, hdc] at hd
        by_cases hk : k = V
        · subst hk
          simp at hd
          subst hd
          rfl
        · simp [hk] at hd
          exact ih k d hd
  | add_waker m w hm ih =>
    intro k d hd
    simp [DashTypeMap.add_change_waker] at hd
    exact ih k d hd

/-- C9: in every reachable registry state, the box stored under a key has
that key as its recorded type identity, so the internal downcast succeeds
and the panic branch (`Except.ok none`) of `remove`, `with_` and `with_mut`
is unreachable. -/
theorem downcast_never_fails {κ : Type} [DecidableEq κ] {I : κ → Type}
    (m : DashTypeMap κ I) (h : Reachable m) (V : κ) :
    (∀ d, m.entries V = some d → (downcast V d).isSome = true) ∧
    (m.remove V).1 ≠ Except.ok none ∧
    (∀ (R : Type) (f : I V → R), m.with_ V f ≠ Except.ok none) ∧
    (∀ (R : Type) (f : I V → I V × R), (m.with_mut V f).1 ≠ Except.ok none) := by
  have hw := reachable_wellTyped h
  have hds : ∀ d, m.entries V = some d → (downcast V d).isSome = true := by
    intro d hd
    have h1 : d.1 = V := hw V d hd
    subst h1
    have h2 : downcast d.1 d = some d.2 := dif_pos rfl
    simp [h2]
  refine ⟨hds, ?_, ?_, ?_⟩
  · cases hv : m.entries V with
    | none => simp [DashTypeMap.remove, hv]
    | some d =>
      have hs := hds d hv
      cases hdc : downcast V d with
      | none => rw [hdc] at hs; simp at hs
      | some w => simp [DashTypeMap.remove, hv, hdc]
  · intro R f
    cases hv : m.entries V with
    | none => simp [DashTypeMap.with_, hv]
    | some d =>
      have hs := hds d hv
      cases hdc : downcast V d with
      | none => rw [hdc] at hs; simp at hs
      | some w => simp [DashTypeMap.with_, hv, hdc]
  · intro R f
    cases hv : m.entries V with
    | none => simp [DashTypeMap.with_mut, hv]
    | some d =>
      have hs := hds d hv
      cases hdc : downcast V d with
      | none => rw [hdc] at hs; simp at hs
      | some w => simp [DashTypeMap.with_mut, hv, hdc]

/-- Witness for `downcast_never_fails`: the registry that inserted a `Nat`
under key 0 is reachable, and removing that entry does not hit the panic
branch. -/
theorem downcast_never_fails_witness :
    Reachable (((DashTypeMap.new : DashTypeMap Nat (fun _ => Nat)).insert 0 7).2.1) ∧
    ((((DashTypeMap.new : DashTypeMap Nat (fun _ => Nat)).insert 0 7).2.1.remove 0).1
        ≠ Except.ok none) :=
  ⟨Reachable.insert _ 0 7 Reachable.new,
   (downcast_never_fails _ (Reachable.insert _ 0 7 Reachable.new) 0).2.1⟩

/-- C4: inserting into the registry fails with `AlreadyExists` when an entry
of the type is present, leaving the whole state (entry included) in place
and waking nobody; otherwise it succeeds, stores the boxed value under its
type identity, leaves every other entry unchanged, and wakes all pending
waiters, draining the queue. -/
theorem insert_spec {κ : Type} [DecidableEq κ] {I : κ → Type}
    (m : DashTypeMap κ I) (V : κ) (v : I V) :
    (m.contains_key V = true →
       m.insert V v = (Except.error DashTypeMapErrors.AlreadyExists, m, [])) ∧
    (m.contains_key V = false →
       (m.insert V v).1 = Except.ok () ∧
       (m.insert V v).2.1.entries V = some ⟨V, v⟩ ∧
       (∀ k, k ≠ V → (m.insert V v).2.1.entries k = m.entries k) ∧
       (m.insert V v).2.2 = m.wakers ∧
       (m.insert V v).2.1.wakers = []) := by
  constructor
  · intro h
    simp [DashTypeMap.insert, h]
  · intro h
    refine ⟨?_, ?_, ?_, ?_, ?_⟩
    · simp [DashTypeMap.insert, h]
    · simp [DashTypeMap.insert, h]
    · intro k hk
      simp [DashTypeMap.insert, h, hk]
    · simp [DashTypeMap.insert, h]
    · simp [DashTypeMap.insert, h]

/-- Witness for `insert_spec`: the occupied branch at key 0 — the second
insert fails and the state, existing entry included, is untouched. -/
theorem insert_spec_witness :
    (((DashTypeMap.new : DashTypeMap Nat (fun _ => Nat)).insert 0 7).2.1.contains_key 0
       = true) ∧
    ((DashTypeMap.new : DashTypeMap Nat (fun _ => Nat)).insert 0 7).2.1.insert 0 9 =
      (Except.error DashTypeMapErrors.AlreadyExists,
       ((DashTypeMap.new : DashTypeMap Nat (fun _ => Nat)).insert 0 7).2.1, []) :=
  ⟨by decide, (insert_spec _ 0 9).1 (by decide)⟩

/-- C5: on a registry without an entry of type `V`, `insert` succeeds and an
immediately following `with_` succeeds and applies its function to the value
just inserted. -/
theorem insert_with_roundtrip {κ : Type} [DecidableEq κ] {I : κ → Type}
    {R : Type} (m : DashTypeMap κ I) (V : κ) (v : I V) (f : I V → R)
    (h : m.contains_key V = false) :
    (m.insert V v).1 = Except.ok () ∧
    (m.insert V v).2.1.with_ V f = Except.ok (some (f v)) := by
  constructor
  · simp [DashTypeMap.insert, h]
  · have he : (m.insert V v).2.1.entries V = some ⟨V, v⟩ := by
      simp [DashTypeMap.insert, h]
    have hdc : downcast V (⟨V, v⟩ : Sigma I) = some v := dif_pos rfl
    simp [DashTypeMap.with_, he, hdc]

/-- Witness for `insert_with_roundtrip`: inserting 7 under key 0 in the
fresh registry and reading it back through `with_` doubles it to 14. -/
theorem insert_with_roundtrip_witness :
    ((DashTypeMap.new : DashTypeMap Nat (fun _ => Nat)).contains_key 0 = false) ∧
    (((DashTypeMap.new : DashTypeMap Nat (fun _ => Nat)).insert 0 7).1 = Except.ok () ∧
     ((DashTypeMap.new : DashTypeMap Nat (fun _ => Nat)).insert 0 7).2.1.with_ 0
        (fun n => n + n) = Except.ok (some 14)) :=
  ⟨by decide, insert_with_roundtrip _ 0 7 (fun n => n + n) (by decide)⟩

end TypeMap

namespace Db

/-- Inserting a row with a version below everything in the list lands at the
end of a descending sort. -/
theorem insertDesc_of_lt (x : Int × List Nat) (l : List (Int × List Nat))
    (h : ∀ y ∈ l, x.1 < y.1) : insertDesc x l = l ++ [x] := by
  induction l with
  | nil => rfl
  | cons y ys ih =>
    have hy : ¬ y.1 ≤ x.1 := not_le.mpr (h y (by simp))
    simp only [insertDesc, if_neg hy, List.cons_append]
    rw [ih (fun z hz => h z (List.mem_cons_of_mem y hz))]

/-- Sorting a strictly ascending list in descending order reverses it. -/
theorem sortDesc_of_pairwise (l : List (Int × List Nat))
    (h : List.Pairwise (fun a b => a.1 < b.1) l) : sortDesc l = l.reverse := by
  induction l with
  | nil => rfl
  | cons x xs ih =>
    rw [List.pairwise_cons] at h
    simp only [sortDesc, List.reverse_cons]
    rw [ih h.2]
    exact insertDesc_of_lt x xs.reverse (fun y hy => h.1 y (List.mem_reverse.mp hy))

/-- When a module's rows are strictly ascending by version, reversing the
descending fetch recovers them as stored. -/
theorem fetchDesc_reverse (db : DbState) (module : String)
    (h : List.Pairwise (fun a b => a.1 < b.1) (moduleVersionRows db module)) :
    (fetchDesc db module).reverse = moduleVersionRows db module := by
  rw [fetchDesc, sortDesc_of_pairwise _ h, List.reverse_reverse]

/-- Event traces concatenate through `execSqls`. -/
theorem execSqls_append (a b : List DbEvent) :
    execSqls (a ++ b) = execSqls a ++ execSqls b :=
  List.filterMap_append a b _

/-- A SQL execution event contributes its text to `execSqls`. -/
theorem execSqls_execSql_cons (s : String) (l : List DbEvent) :
    execSqls (DbEvent.execSql s :: l) = s :: execSqls l := by
  simp [execSqls, List.filterMap_cons]

/-- A ledger insert event contributes nothing to `execSqls`. -/
theorem execSqls_insertRow_cons (module : String) (ver : Int) (ck : List Nat)
    (d : String) (l : List DbEvent) :
    execSqls (DbEvent.insertRow module ver ck d :: l) = execSqls l := by
  simp [execSqls, List.filterMap_cons]

/-- With no ledger rows left, the spec walk cannot fail. -/
theorem specWalk_nil_isOk (cf : String → String → List Nat) (module : String)
    (migs : List Migration) (idx : Nat) :
    ∃ rows, (specWalk cf module migs idx []).2 = Except.ok rows := by
  induction migs generalizing idx with
  | nil => exact ⟨[], rfl⟩
  | cons mig rest ih =>
    obtain ⟨rows, hr⟩ := ih (idx + 1)
    refine ⟨{ module := module, version := (idx : Int),
              checksum := Migration.checksum cf mig,
              description := mig.description } :: rows, ?_⟩
    simp [specWalk, hr, Except.map]

/-- The migration loop refines the spec-side walk: same success or failure
(with the same error), the ledger extended with exactly the walk's appended
rows, the executed SQL texts exactly the walk's, and an aborted walk leaves
the event accumulator untouched. -/
theorem migrateLoop_eq_specWalk (cf : String → String → List Nat)
    (module : String) (migs : List Migration) (idx : Nat)
    (cur : List (Int × List Nat)) (db : DbState) (evs : List DbEvent) :
    (migrateLoop cf module migs (idx : Int) cur db evs).1 =
      Except.map (fun rows => DbState.mk (db.ledger ++ rows))
        (specWalk cf module migs idx cur).2 ∧
    execSqls (migrateLoop cf module migs (idx : Int) cur db evs).2 =
      execSqls evs ++ (specWalk cf module migs idx cur).1 ∧
    (∀ e, (specWalk cf module migs idx cur).2 = Except.error e →
      (migrateLoop cf module migs (idx : Int) cur db evs).2 = evs) := by
  induction migs generalizing idx cur db evs with
  | nil =>
    refine ⟨?_, ?_, ?_⟩ <;> simp [migrateLoop, specWalk, Except.map]
  | cons mig rest ih =>
    cases cur with
    | nil =>
      have hcast : ((idx : Int) + 1) = ((idx + 1 : Nat) : Int) := by push_cast; ring
      have ihx := ih (idx + 1) []
        (DbState.mk (db.ledger ++
          [{ module := module, version := (idx : Int),
             checksum := Migration.checksum cf mig,
             description := mig.description }]))
        (evs ++ [DbEvent.execSql mig.sql_up,
                 DbEvent.insertRow module (idx : Int) (Migration.checksum cf mig)
                   mig.description])
      obtain ⟨rows0, hr0⟩ := specWalk_nil_isOk cf module rest (idx + 1)
      refine ⟨?_, ?_, ?_⟩
      · simp only [migrateLoop, hcast]
        rw [ihx.1]
        simp only [specWalk, hr0, Except.map]
        simp [List.append_assoc]
      · simp only [migrateLoop, hcast]
        rw [ihx.2.1]
        simp only [specWalk]
        rw [execSqls_append]
        simp [execSqls, List.append_assoc]
      · intro e he
        simp [specWalk, hr0, Except.map] at he
    | cons row cur2 =>
      by_cases h1 : row.2.length = 64
      · by_cases h2 : row.1 = (idx : Int)
        · by_cases h3 : row.2 = Migration.checksum cf mig
          · have hcast : ((idx : Int) + 1) = ((idx + 1 : Nat) : Int) := by
              push_cast; ring
            have hlen : (Migration.checksum cf mig).length = 64 := h3 ▸ h1
            have ihx := ih (idx + 1) cur2 db evs
            refine ⟨?_, ?_, ?_⟩
            · simp only [migrateLoop, specWalk, h2, h3, hlen, hcast,
                ne_eq, not_true_eq_false, if_false]
              exact ihx.1
            · simp only [migrateLoop, specWalk, h2, h3, hlen, hcast,
                ne_eq, not_true_eq_false, if_false]
              exact ihx.2.1
            · intro e he
              simp only [specWalk, h2, h3, hlen, ne_eq, not_true_eq_false,
                if_false] at he
              simp only [migrateLoop, h2, h3, hlen, hcast, ne_eq,
                not_true_eq_false, if_false]
              exact ihx.2.2 e he
          · refine ⟨?_, ?_, ?_⟩ <;>
              simp [migrateLoop, specWalk, h1, h2, h3, Except.map]
        · refine ⟨?_, ?_, ?_⟩ <;>
            simp [migrateLoop, specWalk, h1, h2, Except.map]
      · refine ⟨?_, ?_, ?_⟩ <;>
          simp [migrateLoop, specWalk, h1, Except.map]

/-- With no ledger rows left, the loop executes everything: it appends the
canonical rows and emits the canonical events. -/
theorem migrateLoop_nil_cur (cf : String → String → List Nat) (module : String)
    (migs : List Migration) (ver : Int) (db : DbState) (evs : List DbEvent) :
    migrateLoop cf module migs ver [] db evs =
      (Except.ok (DbState.mk (db.ledger ++ canonRows cf module migs ver)),
       evs ++ canonEvents cf module migs ver) := by
  induction migs generalizing ver db evs with
  | nil => simp [migrateLoop, canonRows, canonEvents]
  | cons mig rest ih =>
    simp only [migrateLoop, canonRows, canonEvents]
    rw [ih]
    simp [List.append_assoc]

/-- The canonical events execute exactly the forward SQL of each migration,
in order. -/
theorem execSqls_canonEvents (cf : String → String → List Nat) (module : String)
    (migs : List Migration) (ver : Int) :
    execSqls (canonEvents cf module migs ver) = migs.map Migration.sql_up := by
  induction migs generalizing ver with
  | nil => rfl
  | cons mig rest ih =>
    simp only [canonEvents, execSqls_execSql_cons, execSqls_insertRow_cons,
      List.map_cons]
    rw [ih]

/-- Ledger rows that match the migrations are all skipped, whatever rows
with later versions follow them: no SQL runs, no event is emitted, the store
is untouched. -/
theorem migrateLoop_skip (cf : String → String → List Nat) (module : String)
    (migs : List Migration) (ver : Int) (rest : List (Int × List Nat))
    (db : DbState) (evs : List DbEvent)
    (hcf : ∀ up down, (cf up down).length = 64) :
    migrateLoop cf module migs ver (matchingRows cf migs ver ++ rest) db evs =
      (Except.ok db, evs) := by
  induction migs generalizing ver with
  | nil => simp [migrateLoop, matchingRows]
  | cons mig rest2 ih =>
    have hl : (Migration.checksum cf mig).length = 64 := hcf _ _
    simp only [matchingRows, List.cons_append, migrateLoop, hl,
      ne_eq, not_true_eq_false, if_false]
    exact ih (ver + 1)

/-- Every matching row's version is at least the starting version. -/
theorem matchingRows_version_le (cf : String → String → List Nat)
    (migs : List Migration) (ver : Int) :
    ∀ y ∈ matchingRows cf migs ver, ver ≤ y.1 := by
  induction migs generalizing ver with
  | nil => simp [matchingRows]
  | cons mig rest ih =>
    intro y hy
    simp only [matchingRows, List.mem_cons] at hy
    rcases hy with h | h
    · rw [h]
    · have := ih (ver + 1) y h
      omega

/-- Matching rows are strictly ascending by version. -/
theorem matchingRows_pairwise (cf : String → String → List Nat)
    (migs : List Migration) (ver : Int) :
    List.Pairwise (fun a b => a.1 < b.1) (matchingRows cf migs ver) := by
  induction migs generalizing ver with
  | nil => simp [matchingRows]
  | cons mig rest ih =>
    simp only [matchingRows]
    refine List.Pairwise.cons ?_ (ih (ver + 1))
    intro y hy
    have := matchingRows_version_le cf rest (ver + 1) y hy
    simp only []
    omega

/-- The canonical rows all carry the module name and project to the matching
(version, checksum) pairs. -/
theorem canonRows_project (cf : String → String → List Nat) (module : String)
    (migs : List Migration) (ver : Int) :
    ((canonRows cf module migs ver).filter (fun r => r.module == module)).map
        (fun r => (r.version, r.checksum)) = matchingRows cf migs ver := by
  induction migs generalizing ver with
  | nil => rfl
  | cons mig rest ih =>
    simp [canonRows, matchingRows, List.filter_cons, ih]

/-- C8: an empty `MigrationSet` is a complete no-op: `migrate_up` succeeds,
the store is unchanged, and the event trace is empty — no transaction is
opened, no ledger row is read, no SQL is executed, nothing is inserted. -/
theorem migrate_up_empty_noop (cf : String → String → List Nat)
    (module : String) (db : DbState) :
    migrate_up cf { module := module, migrations := [] } db =
      (Except.ok (), db, []) := by
  simp [migrate_up]

/-- C2: on a store whose rows for the module are strictly ascending by
version (the primary key invariant), `migrate_up` agrees with the
spec-worded walk `specWalk`: same success or fatal error, the executed
forward SQL exactly the walk's, and the final ledger exactly the original
extended by the walk's appended rows (unchanged on error — no further
migration executes, and indeed none was executed at all). -/
theorem migrate_up_matches_spec (cf : String → String → List Nat)
    (ms : Migrations) (db : DbState)
    (hwf : List.Pairwise (fun a b => a.1 < b.1) (moduleVersionRows db ms.module)) :
    (migrate_up cf ms db).1 =
      Except.map (fun _ => ())
        (specWalk cf ms.module ms.migrations 0 (moduleVersionRows db ms.module)).2 ∧
    execSqls (migrate_up cf ms db).2.2 =
      (specWalk cf ms.module ms.migrations 0 (moduleVersionRows db ms.module)).1 ∧
    (migrate_up cf ms db).2.1 =
      (match (specWalk cf ms.module ms.migrations 0 (moduleVersionRows db ms.module)).2 with
       | Except.ok rows => DbState.mk (db.ledger ++ rows)
       | Except.error _ => db) := by
  by_cases hE : ms.migrations.isEmpty = true
  · have hnil : ms.migrations = [] := by
      cases hm : ms.migrations with
      | nil => rfl
      | cons a l => rw [hm] at hE; simp [List.isEmpty] at hE
    refine ⟨?_, ?_, ?_⟩ <;>
      simp [migrate_up, hE, hnil, specWalk, Except.map, execSqls]
  · have hne : ms.migrations.isEmpty = false := by
      cases h : ms.migrations.isEmpty
      · rfl
      · exact absurd h hE
    have hrev : (fetchDesc db ms.module).reverse = moduleVersionRows db ms.module :=
      fetchDesc_reverse db ms.module hwf
    have hloop := migrateLoop_eq_specWalk cf ms.module ms.migrations 0
      (moduleVersionRows db ms.module) db [DbEvent.beginTx, DbEvent.readLedger]
    simp only [Nat.cast_zero] at hloop
    rcases hp : migrateLoop cf ms.module ms.migrations 0
        (moduleVersionRows db ms.module) db
        [DbEvent.beginTx, DbEvent.readLedger] with ⟨res, evs2⟩
    rw [hp] at hloop
    cases res with
    | ok db2 =>
      have hres : migrate_up cf ms db =
          (Except.ok (), db2, evs2 ++ [DbEvent.commitTx]) := by
        simp only [migrate_up, hne, Bool.false_eq_true, if_false, hrev, hp]
      have hs : ∃ rows,
          (specWalk cf ms.module ms.migrations 0 (moduleVersionRows db ms.module)).2
            = Except.ok rows := by
        cases h2 : (specWalk cf ms.module ms.migrations 0
            (moduleVersionRows db ms.module)).2 with
        | ok rows => exact ⟨rows, rfl⟩
        | error e =>
          rw [h2] at hloop
          simp [Except.map] at hloop
      obtain ⟨rows, hrows⟩ := hs
      have hdb2 : db2 = DbState.mk (db.ledger ++ rows) := by
        have h1 := hloop.1
        rw [hrows] at h1
        simp [Except.map] at h1
        exact h1
      have hsql2 : execSqls evs2 =
          (specWalk cf ms.module ms.migrations 0 (moduleVersionRows db ms.module)).1 := by
        have hbr : execSqls [DbEvent.beginTx, DbEvent.readLedger] = [] := rfl
        have h2 := hloop.2.1
        rw [hbr] at h2
        simpa using h2
      refine ⟨?_, ?_, ?_⟩
      · rw [hres, hrows]
        rfl
      · rw [hres]
        have hct : execSqls [DbEvent.commitTx] = [] := rfl
        show execSqls (evs2 ++ [DbEvent.commitTx]) = _
        rw [execSqls_append, hct, hsql2, List.append_nil]
      · rw [hres, hrows, hdb2]
    | error e =>
      have hres : migrate_up cf ms db =
          (Except.error e, db, evs2 ++ [DbEvent.rollbackTx]) := by
        simp only [migrate_up, hne, Bool.false_eq_true, if_false, hrev, hp]
      have herr :
          (specWalk cf ms.module ms.migrations 0 (moduleVersionRows db ms.module)).2
            = Except.error e := by
        cases h2 : (specWalk cf ms.module ms.migrations 0
            (moduleVersionRows db ms.module)).2 with
        | ok rows =>
          rw [h2] at hloop
          simp [Except.map] at hloop
        | error e2 =>
          rw [h2] at hloop
          simp [Except.map] at hloop
          rw [hloop.1]
      have hevs : evs2 = [DbEvent.beginTx, DbEvent.readLedger] :=
        hloop.2.2 e herr
      have hsql :
          (specWalk cf ms.module ms.migrations 0 (moduleVersionRows db ms.module)).1
            = [] := by
        have h2 := hloop.2.1
        rw [hevs] at h2
        simpa using h2.symm
      refine ⟨?_, ?_, ?_⟩
      · rw [hres, herr]
        rfl
      · rw [hres, hsql, hevs]
        rfl
      · rw [hres, herr]

/-- Witness for `migrate_up_matches_spec` on a one-migration set against the
empty store. -/
theorem migrate_up_matches_spec_witness :
    List.Pairwise (fun (a b : Int × List Nat) => a.1 < b.1)
      (moduleVersionRows (DbState.mk []) "m") ∧
    (migrate_up (fun _ _ => List.replicate 64 0)
        { module := "m", migrations := [{ description := "d", sql_up := "up", sql_down := "down" }] }
        (DbState.mk [])).1 =
      Except.map (fun _ => ())
        (specWalk (fun _ _ => List.replicate 64 0) "m"
          [{ description := "d", sql_up := "up", sql_down := "down" }] 0
          (moduleVersionRows (DbState.mk []) "m")).2 :=
  ⟨by simp [moduleVersionRows, moduleRows],
   (migrate_up_matches_spec (fun _ _ => List.replicate 64 0)
      { module := "m", migrations := [{ description := "d", sql_up := "up", sql_down := "down" }] }
      (DbState.mk []) (by simp [moduleVersionRows, moduleRows])).1⟩

/-- C3: running `migrate_up` twice against a store with no rows for the
module executes each migration's forward SQL exactly once, in order, during
the first run; the second run succeeds, executes nothing (every version is
found in the ledger and skipped after its checksum matches), and leaves the
store exactly as the first run left it. -/
theorem migrate_up_rerun (cf : String → String → List Nat) (ms : Migrations)
    (db : DbState)
    (hcf : ∀ up down, (cf up down).length = 64)
    (hmod : moduleRows db ms.module = []) :
    (migrate_up cf ms db).1 = Except.ok () ∧
    execSqls (migrate_up cf ms db).2.2 = ms.migrations.map Migration.sql_up ∧
    (migrate_up cf ms (migrate_up cf ms db).2.1).1 = Except.ok () ∧
    execSqls (migrate_up cf ms (migrate_up cf ms db).2.1).2.2 = [] ∧
    (migrate_up cf ms (migrate_up cf ms db).2.1).2.1 = (migrate_up cf ms db).2.1 := by
  have hbr : execSqls [DbEvent.beginTx, DbEvent.readLedger] = [] := rfl
  have hct : execSqls [DbEvent.commitTx] = [] := rfl
  by_cases hE : ms.migrations.isEmpty = true
  · have hnil : ms.migrations = [] := by
      cases hm : ms.migrations with
      | nil => rfl
      | cons a l => rw [hm] at hE; simp [List.isEmpty] at hE
    refine ⟨?_, ?_, ?_, ?_, ?_⟩ <;> simp [migrate_up, hE, hnil, execSqls]
  · have hne : ms.migrations.isEmpty = false := by
      cases h : ms.migrations.isEmpty
      · rfl
      · exact absurd h hE
    have hmv : moduleVersionRows db ms.module = [] := by
      simp [moduleVersionRows, hmod]
    have hfetch : (fetchDesc db ms.module).reverse = [] := by
      simp [fetchDesc, hmv, sortDesc]
    have hrun1 : migrate_up cf ms db =
        (Except.ok (),
         DbState.mk (db.ledger ++ canonRows cf ms.module ms.migrations 0),
         ([DbEvent.beginTx, DbEvent.readLedger] ++
            canonEvents cf ms.module ms.migrations 0) ++ [DbEvent.commitTx]) := by
      simp only [migrate_up, hne, Bool.false_eq_true, if_false, hfetch]
      rw [migrateLoop_nil_cur]
    have hr1a : (migrate_up cf ms db).1 = Except.ok () := by rw [hrun1]
    have hdb1 : (migrate_up cf ms db).2.1 =
        DbState.mk (db.ledger ++ canonRows cf ms.module ms.migrations 0) := by
      rw [hrun1]
    have hevs1 : (migrate_up cf ms db).2.2 =
        ([DbEvent.beginTx, DbEvent.readLedger] ++
           canonEvents cf ms.module ms.migrations 0) ++ [DbEvent.commitTx] := by
      rw [hrun1]
    have hflt : db.ledger.filter (fun r => r.module == ms.module) = [] := hmod
    have hmr2 : moduleRows
        (DbState.mk (db.ledger ++ canonRows cf ms.module ms.migrations 0)) ms.module
        = (canonRows cf ms.module ms.migrations 0).filter
            (fun r => r.module == ms.module) := by
      simp [moduleRows, List.filter_append, hflt]
    have hmv2 : moduleVersionRows
        (DbState.mk (db.ledger ++ canonRows cf ms.module ms.migrations 0)) ms.module
        = matchingRows cf ms.migrations 0 := by
      simp only [moduleVersionRows]
      rw [hmr2, canonRows_project]
    have hfetch2 : (fetchDesc
        (DbState.mk (db.ledger ++ canonRows cf ms.module ms.migrations 0))
        ms.module).reverse = matchingRows cf ms.migrations 0 := by
      rw [fetchDesc, hmv2,
        sortDesc_of_pairwise _ (matchingRows_pairwise cf ms.migrations 0),
        List.reverse_reverse]
    have hskip := migrateLoop_skip cf ms.module ms.migrations 0 []
      (DbState.mk (db.ledger ++ canonRows cf ms.module ms.migrations 0))
      [DbEvent.beginTx, DbEvent.readLedger] hcf
    rw [List.append_nil] at hskip
    have hrun2 : migrate_up cf ms
        (DbState.mk (db.ledger ++ canonRows cf ms.module ms.migrations 0)) =
        (Except.ok (),
         DbState.mk (db.ledger ++ canonRows cf ms.module ms.migrations 0),
         [DbEvent.beginTx, DbEvent.readLedger] ++ [DbEvent.commitTx]) := by
      simp only [migrate_up, hne, Bool.false_eq_true, if_false, hfetch2]
      rw [hskip]
    refine ⟨hr1a, ?_, ?_, ?_, ?_⟩
    · rw [hevs1, execSqls_append, execSqls_append, execSqls_canonEvents, hbr, hct]
      simp
    · rw [hdb1, hrun2]
    · rw [hdb1, hrun2]
      rfl
    · rw [hdb1, hrun2]

/-- Witness for `migrate_up_rerun` on a one-migration set against the empty
store. -/
theorem migrate_up_rerun_witness :
    (∀ up down : String,
      ((fun (_ _ : String) => List.replicate 64 0) up down).length = 64) ∧
    moduleRows (DbState.mk []) "m" = [] ∧
    (migrate_up (fun _ _ => List.replicate 64 0)
       { module := "m",
         migrations := [{ description := "d", sql_up := "up", sql_down := "dn" }] }
       (DbState.mk [])).1 = Except.ok () :=
  ⟨fun _ _ => rfl, rfl,
   (migrate_up_rerun (fun _ _ => List.replicate 64 0)
      { module := "m",
        migrations := [{ description := "d", sql_up := "up", sql_down := "dn" }] }
      (DbState.mk []) (fun _ _ => rfl) rfl).1⟩

/-- C10: when the module's ledger holds rows matching every defined
migration plus surplus rows with later versions (their checksums and lengths
arbitrary — they are never validated), `migrate_up` succeeds, executes no
SQL, inserts nothing, and leaves the store — surplus rows included —
unchanged. -/
theorem migrate_up_surplus_ignored (cf : String → String → List Nat)
    (ms : Migrations) (db : DbState) (extras : List (Int × List Nat))
    (hcf : ∀ up down, (cf up down).length = 64)
    (hmod : moduleVersionRows db ms.module =
      matchingRows cf ms.migrations 0 ++ extras)
    (hwf : List.Pairwise (fun a b => a.1 < b.1) (moduleVersionRows db ms.module))
    (hne : ms.migrations.isEmpty = false) :
    migrate_up cf ms db =
      (Except.ok (), db,
       [DbEvent.beginTx, DbEvent.readLedger, DbEvent.commitTx]) := by
  have hfetch : (fetchDesc db ms.module).reverse =
      matchingRows cf ms.migrations 0 ++ extras := by
    rw [fetchDesc, sortDesc_of_pairwise _ hwf, List.reverse_reverse, hmod]
  simp only [migrate_up, hne, Bool.false_eq_true, if_false, hfetch]
  rw [migrateLoop_skip cf ms.module ms.migrations 0 extras db _ hcf]
  rfl

/-- Witness for `migrate_up_surplus_ignored`: one matching row plus one
surplus row of version 1 whose checksum is garbage of the wrong length. -/
theorem migrate_up_surplus_ignored_witness :
    (∀ up down : String,
      ((fun (_ _ : String) => List.replicate 64 0) up down).length = 64) ∧
    moduleVersionRows
        (DbState.mk
          [{ module := "m", version := 0, checksum := List.replicate 64 0,
             description := "d" },
           { module := "m", version := 1, checksum := [9],
             description := "junk" }]) "m" =
      matchingRows (fun _ _ => List.replicate 64 0)
        [{ description := "d", sql_up := "up", sql_down := "dn" }] 0 ++
        [(1, [9])] ∧
    migrate_up (fun _ _ => List.replicate 64 0)
        { module := "m",
          migrations := [{ description := "d", sql_up := "up", sql_down := "dn" }] }
        (DbState.mk
          [{ module := "m", version := 0, checksum := List.replicate 64 0,
             description := "d" },
           { module := "m", version := 1, checksum := [9],
             description := "junk" }]) =
      (Except.ok (),
       DbState.mk
         [{ module := "m", version := 0, checksum := List.replicate 64 0,
            description := "d" },
          { module := "m", version := 1, checksum := [9],
            description := "junk" }],
       [DbEvent.beginTx, DbEvent.readLedger, DbEvent.commitTx]) :=
  ⟨fun _ _ => rfl, by decide,
   migrate_up_surplus_ignored (fun _ _ => List.replicate 64 0)
     { module := "m",
       migrations := [{ description := "d", sql_up := "up", sql_down := "dn" }] }
     (DbState.mk
       [{ module := "m", version := 0, checksum := List.replicate 64 0,
          description := "d" },
        { module := "m", version := 1, checksum := [9],
          description := "junk" }])
     [(1, [9])] (fun _ _ => rfl) (by decide)
     (by simp [moduleVersionRows, moduleRows, List.pairwise_cons]) rfl⟩

end Db

end Overbot
